import Mathlib

/-!
Verification of the dayjs-business calendar engines.

The repository's engines operate on dayjs values, i.e. on millisecond
timestamps together with their derived civil calendar fields.  Every
operation verified here works at day resolution (all inputs are produced by
`startOf('day')` / date-string parsing), so a date is embedded as a civil
triple `(year, month, day)` on the proleptic Gregorian calendar, with
`month` 0-indexed and `day` 1-indexed exactly as in dayjs.  The timestamp
of a date (in days) is recovered by `Date.rata`; dayjs primitives that act
on the timestamp (`add(n, 'day')`, `diff(other, 'day')`, `isBefore`,
`isSame(_, 'day')`, `valueOf`) are modelled through `Date.rata`, while
primitives that act on the civil fields (`month()`, `date()`, `daysInMonth()`,
`set`, `startOf('month')`, `add(n, 'month')`) are modelled structurally.
-/

/-- A civil calendar date as dayjs exposes it: `year` is the calendar year,
`month` is 0-indexed (0 = January .. 11 = December), `day` is the 1-indexed
day of the month. -/
structure Date where
  year : Int
  month : Int
  day : Int
deriving DecidableEq, Repr

/-- Gregorian leap-year test, as in the dayjs/JS calendar: divisible by 4 and
not by 100, or divisible by 400. -/
def isLeapYear (y : Int) : Bool :=
  (y % 4 == 0 && y % 100 != 0) || y % 400 == 0

/-- Number of days in month `m` (0-indexed) of year `y`; dayjs `daysInMonth()`. -/
def daysInMonthOf (y m : Int) : Int :=
  if m = 1 then (if isLeapYear y then 29 else 28)
  else if m = 3 ∨ m = 5 ∨ m = 8 ∨ m = 10 then 30
  else 31

/-- The dayjs `daysInMonth()` accessor. -/
def Date.daysInMonth (d : Date) : Int := daysInMonthOf d.year d.month

/-- A triple denotes an actual calendar date: month in range and day within
the month's length. -/
def Date.Valid (d : Date) : Prop :=
  0 ≤ d.month ∧ d.month < 12 ∧ 1 ≤ d.day ∧ d.day ≤ daysInMonthOf d.year d.month

instance (d : Date) : Decidable d.Valid := by
  unfold Date.Valid; infer_instance

/-- Days contributed by the first `m` months (month indices `0..m-1`) of year `y`. -/
def daysBeforeMonth (y : Int) : Nat → Int
  | 0 => 0
  | m + 1 => daysBeforeMonth y m + daysInMonthOf y m

/-- Days of all years `0, 1, .., y-1` (negative for `y < 0`): `365·y` plus the
number of leap years in `[0, y)`.  Division here is floor division (Lean's
`Int` `/` is Euclidean division, which agrees with floor division for
positive divisors). -/
def daysBeforeYear (y : Int) : Int :=
  365 * y + (y + 3) / 4 - (y + 99) / 100 + (y + 399) / 400

/-- Timestamp of a date, counted in days since 0000-01-01; the day-resolution
image of the dayjs millisecond value. -/
def Date.rata (d : Date) : Int :=
  daysBeforeYear d.year + daysBeforeMonth d.year d.month.toNat + d.day - 1

/-- Successor day in civil form; dayjs `add(1, 'day')` read back as fields. -/
def Date.nextDay (d : Date) : Date :=
  if d.day < daysInMonthOf d.year d.month then ⟨d.year, d.month, d.day + 1⟩
  else if d.month < 11 then ⟨d.year, d.month + 1, 1⟩
  else ⟨d.year + 1, 0, 1⟩

/-- Predecessor day in civil form; dayjs `subtract(1, 'day')`. -/
def Date.prevDay (d : Date) : Date :=
  if 1 < d.day then ⟨d.year, d.month, d.day - 1⟩
  else if 0 < d.month then ⟨d.year, d.month - 1, daysInMonthOf d.year (d.month - 1)⟩
  else ⟨d.year - 1, 11, 31⟩

/-- dayjs `add(n, 'month')`: move to month index `month + n` (years roll over
by floor division) and clamp the day-of-month to the target month's length. -/
def Date.addMonths (d : Date) (n : Int) : Date :=
  let total := d.month + n
  let y := d.year + total / 12
  let m := total % 12
  ⟨y, m, min d.day (daysInMonthOf y m)⟩

/-- dayjs `.year(v)` setter: it internally moves to day 1, sets the year, and
restores `min(day, daysInMonth)` — i.e. the day is clamped, never overflowed. -/
def Date.setYear (d : Date) (y : Int) : Date :=
  ⟨y, d.month, min d.day (daysInMonthOf y d.month)⟩

/-- dayjs `.month(m)` setter: same clamping behaviour as `.year`, with native
rollover of out-of-range month indices. -/
def Date.setMonth (d : Date) (m : Int) : Date :=
  let y := d.year + m / 12
  let m' := m % 12
  ⟨y, m', min d.day (daysInMonthOf y m')⟩

/-- dayjs `.date(n)` setter for `1 ≤ n ≤ 31`: native `setDate`, which
overflows into the following month when `n` exceeds the month's length
(an overflow of at most 3 days, so at most one month ahead). -/
def Date.setDayOfMonth (d : Date) (n : Int) : Date :=
  let dim := daysInMonthOf d.year d.month
  if n ≤ dim then ⟨d.year, d.month, n⟩
  else if d.month < 11 then ⟨d.year, d.month + 1, n - dim⟩
  else ⟨d.year + 1, 0, n - dim⟩

/-- dayjs `startOf('month')`. -/
def Date.startOfMonth (d : Date) : Date := ⟨d.year, d.month, 1⟩

/-- Day of week with 0 = Sunday .. 6 = Saturday, as JS `Date.getDay()`;
fixed so that 1970-01-01 (rata 719528) is a Thursday (4). -/
def Date.dayOfWeek (d : Date) : Int := (d.rata + 6) % 7

/-- Left-pad the decimal representation of a nonnegative integer with zeros. -/
def padZeros (w : Nat) (n : Int) : String :=
  let s := toString n
  if s.length < w then String.mk (List.replicate (w - s.length) '0') ++ s else s

/-- dayjs `format('YYYY-MM-DD')` (month printed 1-indexed). -/
def Date.format (d : Date) : String :=
  padZeros 4 d.year ++ "-" ++ padZeros 2 (d.month + 1) ++ "-" ++ padZeros 2 d.day

-- Sanity checks of the embedding on known dates.
example : Date.rata ⟨1970, 0, 1⟩ = 719528 := by decide
example : Date.dayOfWeek ⟨2024, 0, 15⟩ = 1 := by decide
example : Date.dayOfWeek ⟨2024, 0, 19⟩ = 5 := by decide
example : (Date.format ⟨2024, 1, 29⟩) = "2024-02-29" := by decide
example : Date.nextDay ⟨2024, 1, 28⟩ = ⟨2024, 1, 29⟩ := by decide
example : Date.nextDay ⟨2023, 1, 28⟩ = ⟨2023, 2, 1⟩ := by decide
example : Date.addMonths ⟨2024, 0, 31⟩ 1 = ⟨2024, 1, 29⟩ := by decide

/-! Arithmetic facts about the civil/rata correspondence. -/

lemma isLeapYear_iff (y : Int) :
    isLeapYear y = true ↔ ((y % 4 = 0 ∧ y % 100 ≠ 0) ∨ y % 400 = 0) := by
  simp [isLeapYear]

lemma daysInMonthOf_lb (y m : Int) : 28 ≤ daysInMonthOf y m := by
  unfold daysInMonthOf
  split
  · split <;> norm_num
  · split <;> norm_num

lemma daysInMonthOf_ub (y m : Int) : daysInMonthOf y m ≤ 31 := by
  unfold daysInMonthOf
  split
  · split <;> norm_num
  · split <;> norm_num

lemma daysInMonthOf_jan (y : Int) : daysInMonthOf y 0 = 31 := by
  unfold daysInMonthOf; norm_num

lemma daysInMonthOf_dec (y : Int) : daysInMonthOf y 11 = 31 := by
  unfold daysInMonthOf; norm_num

lemma daysBeforeMonth_nonneg (y : Int) (m : Nat) : 0 ≤ daysBeforeMonth y m := by
  induction m with
  | zero => simp [daysBeforeMonth]
  | succ k ih =>
    have := daysInMonthOf_lb y k
    simp only [daysBeforeMonth]
    omega

lemma daysBeforeMonth_mono (y : Int) {m m' : Nat} (h : m ≤ m') :
    daysBeforeMonth y m ≤ daysBeforeMonth y m' := by
  induction m' with
  | zero =>
    have : m = 0 := by omega
    subst this; exact le_refl _
  | succ k ih =>
    rcases Nat.lt_or_ge m (k + 1) with hk | hk
    · have h1 := ih (by omega)
      have h2 := daysInMonthOf_lb y k
      simp only [daysBeforeMonth]
      omega
    · have : m = k + 1 := by omega
      subst this; exact le_refl _

lemma daysBeforeMonth_twelve (y : Int) :
    daysBeforeMonth y 12 = if isLeapYear y then 366 else 365 := by
  show daysBeforeMonth y (11+1) = _
  simp only [daysBeforeMonth]
  by_cases h : isLeapYear y <;> simp [daysInMonthOf, h]

lemma daysBeforeYear_succ (y : Int) :
    daysBeforeYear (y + 1) = daysBeforeYear y + (if isLeapYear y then 366 else 365) := by
  by_cases h : isLeapYear y = true
  · rw [if_pos h]
    rw [isLeapYear_iff] at h
    unfold daysBeforeYear
    rcases h with ⟨h4, h100⟩ | h400 <;> omega
  · rw [if_neg h]
    rw [isLeapYear_iff] at h
    push_neg at h
    unfold daysBeforeYear
    omega

lemma daysBeforeYear_mono {y y' : Int} (h : y ≤ y') : daysBeforeYear y ≤ daysBeforeYear y' := by
  unfold daysBeforeYear; omega

lemma rata_year_lb {d : Date} (h : d.Valid) : daysBeforeYear d.year ≤ d.rata := by
  obtain ⟨h1, h2, h3, h4⟩ := h
  have := daysBeforeMonth_nonneg d.year d.month.toNat
  unfold Date.rata
  omega

lemma rata_year_ub {d : Date} (h : d.Valid) : d.rata < daysBeforeYear (d.year + 1) := by
  obtain ⟨h1, h2, h3, h4⟩ := h
  have hm : (d.month.toNat : Int) = d.month := Int.toNat_of_nonneg h1
  have hstep : daysBeforeMonth d.year (d.month.toNat + 1)
      = daysBeforeMonth d.year d.month.toNat + daysInMonthOf d.year d.month := by
    simp only [daysBeforeMonth, hm]
  have hmono : daysBeforeMonth d.year (d.month.toNat + 1) ≤ daysBeforeMonth d.year 12 :=
    daysBeforeMonth_mono d.year (by omega)
  have h12 := daysBeforeMonth_twelve d.year
  have hy := daysBeforeYear_succ d.year
  unfold Date.rata
  by_cases hl : isLeapYear d.year <;> simp [hl] at h12 hy <;> omega

/-- Chronological (lexicographic) strict order on civil triples. -/
def Date.lexLt (a b : Date) : Prop :=
  a.year < b.year ∨ (a.year = b.year ∧
    (a.month < b.month ∨ (a.month = b.month ∧ a.day < b.day)))

instance (a b : Date) : Decidable (a.lexLt b) := by
  unfold Date.lexLt; infer_instance

lemma rata_lt_of_lexLt {a b : Date} (ha : a.Valid) (hb : b.Valid) (h : a.lexLt b) :
    a.rata < b.rata := by
  rcases h with hy | ⟨hy, hm | ⟨hm, hd⟩⟩
  · calc a.rata < daysBeforeYear (a.year + 1) := rata_year_ub ha
    _ ≤ daysBeforeYear b.year := daysBeforeYear_mono (by omega)
    _ ≤ b.rata := rata_year_lb hb
  · obtain ⟨ha1, ha2, ha3, ha4⟩ := ha
    obtain ⟨hb1, hb2, hb3, hb4⟩ := hb
    have hma : (a.month.toNat : Int) = a.month := Int.toNat_of_nonneg ha1
    have hstep : daysBeforeMonth a.year (a.month.toNat + 1)
        = daysBeforeMonth a.year a.month.toNat + daysInMonthOf a.year a.month := by
      simp only [daysBeforeMonth, hma]
    have hmono : daysBeforeMonth a.year (a.month.toNat + 1)
        ≤ daysBeforeMonth a.year b.month.toNat :=
      daysBeforeMonth_mono a.year (by omega)
    unfold Date.rata
    rw [← hy] at hb4 ⊢
    omega
  · unfold Date.rata
    rw [← hy, ← hm]
    omega

lemma lex_trichotomy (a b : Date) : a.lexLt b ∨ a = b ∨ b.lexLt a := by
  rcases a with ⟨y, m, d⟩
  rcases b with ⟨y', m', d'⟩
  simp only [Date.lexLt, Date.mk.injEq]
  omega

lemma rata_lt_iff_lexLt {a b : Date} (ha : a.Valid) (hb : b.Valid) :
    a.rata < b.rata ↔ a.lexLt b := by
  constructor
  · intro h
    rcases lex_trichotomy a b with hl | he | hg
    · exact hl
    · subst he; omega
    · exact absurd (rata_lt_of_lexLt hb ha hg) (by omega)
  · exact rata_lt_of_lexLt ha hb

lemma rata_inj {a b : Date} (ha : a.Valid) (hb : b.Valid) (h : a.rata = b.rata) : a = b := by
  rcases lex_trichotomy a b with hl | he | hg
  · exact absurd (rata_lt_of_lexLt ha hb hl) (by omega)
  · exact he
  · exact absurd (rata_lt_of_lexLt hb ha hg) (by omega)


lemma daysBeforeMonth_step (y : Int) {m : Int} (h : 0 ≤ m) :
    daysBeforeMonth y (m + 1).toNat
      = daysBeforeMonth y m.toNat + daysInMonthOf y m := by
  have hma : (m.toNat : Int) = m := Int.toNat_of_nonneg h
  have hsucc : (m + 1).toNat = m.toNat + 1 := by omega
  rw [hsucc]
  simp only [daysBeforeMonth, hma]

lemma year_mk (y m d : Int) : (Date.mk y m d).year = y := rfl

lemma month_mk (y m d : Int) : (Date.mk y m d).month = m := rfl

lemma day_mk (y m d : Int) : (Date.mk y m d).day = d := rfl

lemma nextDay_valid {d : Date} (h : d.Valid) : d.nextDay.Valid := by
  obtain ⟨h1, h2, h3, h4⟩ := h
  unfold Date.nextDay
  by_cases hlt : d.day < daysInMonthOf d.year d.month
  · rw [if_pos hlt]
    refine ⟨?_, ?_, ?_, ?_⟩ <;> simp only [Date.Valid, year_mk, month_mk, day_mk] <;> omega
  · rw [if_neg hlt]
    by_cases hm : d.month < 11
    · rw [if_pos hm]
      have := daysInMonthOf_lb d.year (d.month + 1)
      refine ⟨?_, ?_, ?_, ?_⟩ <;> simp only [Date.Valid, year_mk, month_mk, day_mk] <;> omega
    · rw [if_neg hm]
      have := daysInMonthOf_jan (d.year + 1)
      refine ⟨?_, ?_, ?_, ?_⟩ <;> simp only [Date.Valid, year_mk, month_mk, day_mk] <;> omega

lemma rata_nextDay {d : Date} (h : d.Valid) : d.nextDay.rata = d.rata + 1 := by
  obtain ⟨h1, h2, h3, h4⟩ := h
  unfold Date.nextDay
  by_cases hlt : d.day < daysInMonthOf d.year d.month
  · rw [if_pos hlt]
    unfold Date.rata
    simp only [year_mk, month_mk, day_mk]
    omega
  · rw [if_neg hlt]
    by_cases hm : d.month < 11
    · rw [if_pos hm]
      have hstep := daysBeforeMonth_step d.year h1
      unfold Date.rata
      simp only [year_mk, month_mk, day_mk]
      omega
    · rw [if_neg hm]
      have hm11 : d.month = 11 := by omega
      have h31 := daysInMonthOf_dec d.year
      have hstep : daysBeforeMonth d.year 12
          = daysBeforeMonth d.year 11 + daysInMonthOf d.year 11 := by
        simp only [show (12:Nat) = 11 + 1 from rfl, daysBeforeMonth]
        norm_num
      have h12 := daysBeforeMonth_twelve d.year
      have hy := daysBeforeYear_succ d.year
      unfold Date.rata
      simp only [year_mk, month_mk, day_mk]
      rw [hm11, show ((11:Int)).toNat = 11 from rfl, show ((0:Int)).toNat = 0 from rfl,
        show daysBeforeMonth (d.year + 1) 0 = 0 from rfl]
      rw [hm11, h31] at h4
      rw [hm11, h31] at hlt
      by_cases hl : isLeapYear d.year <;> simp [hl] at h12 hy <;> omega

lemma prevDay_valid {d : Date} (h : d.Valid) : d.prevDay.Valid := by
  obtain ⟨h1, h2, h3, h4⟩ := h
  unfold Date.prevDay
  by_cases hgt : 1 < d.day
  · rw [if_pos hgt]
    refine ⟨?_, ?_, ?_, ?_⟩ <;> simp only [Date.Valid, year_mk, month_mk, day_mk] <;> omega
  · rw [if_neg hgt]
    by_cases hm : 0 < d.month
    · rw [if_pos hm]
      have := daysInMonthOf_lb d.year (d.month - 1)
      refine ⟨?_, ?_, ?_, ?_⟩ <;> simp only [Date.Valid, year_mk, month_mk, day_mk] <;> omega
    · rw [if_neg hm]
      have := daysInMonthOf_dec (d.year - 1)
      refine ⟨?_, ?_, ?_, ?_⟩ <;> simp only [Date.Valid, year_mk, month_mk, day_mk] <;> omega

lemma rata_prevDay {d : Date} (h : d.Valid) : d.prevDay.rata = d.rata - 1 := by
  obtain ⟨h1, h2, h3, h4⟩ := h
  unfold Date.prevDay
  by_cases hgt : 1 < d.day
  · rw [if_pos hgt]
    unfold Date.rata
    simp only [year_mk, month_mk, day_mk]
    omega
  · rw [if_neg hgt]
    by_cases hm : 0 < d.month
    · rw [if_pos hm]
      have hstep : daysBeforeMonth d.year ((d.month - 1) + 1).toNat
          = daysBeforeMonth d.year (d.month - 1).toNat + daysInMonthOf d.year (d.month - 1) :=
        daysBeforeMonth_step d.year (by omega)
      rw [show d.month - 1 + 1 = d.month from by omega] at hstep
      unfold Date.rata
      simp only [year_mk, month_mk, day_mk]
      omega
    · rw [if_neg hm]
      have hm0 : d.month = 0 := by omega
      have h31 := daysInMonthOf_dec (d.year - 1)
      have hstep : daysBeforeMonth (d.year - 1) 12
          = daysBeforeMonth (d.year - 1) 11 + daysInMonthOf (d.year - 1) 11 := by
        simp only [show (12:Nat) = 11 + 1 from rfl, daysBeforeMonth]
        norm_num
      have h12 := daysBeforeMonth_twelve (d.year - 1)
      have hy := daysBeforeYear_succ (d.year - 1)
      rw [show d.year - 1 + 1 = d.year from by omega] at hy
      unfold Date.rata
      simp only [year_mk, month_mk, day_mk]
      rw [hm0, show ((11:Int)).toNat = 11 from rfl, show ((0:Int)).toNat = 0 from rfl,
        show daysBeforeMonth d.year 0 = 0 from rfl]
      by_cases hl : isLeapYear (d.year - 1) <;> simp [hl] at h12 hy <;> omega

lemma addMonths_valid {d : Date} (h : d.Valid) (n : Int) : (d.addMonths n).Valid := by
  obtain ⟨h1, h2, h3, h4⟩ := h
  have hlb := daysInMonthOf_lb (d.year + (d.month + n) / 12) ((d.month + n) % 12)
  unfold Date.addMonths
  refine ⟨?_, ?_, ?_, ?_⟩ <;> simp only [year_mk, month_mk, day_mk, le_min_iff, min_le_iff] <;> omega

/-!
BusinessDayEngine — embedding of the business-day plugin
(`isWorkday`, `findHoliday`, `isBusinessDay`, `businessDaysBetween`).
-/

/-- Holiday record of the core package: an ISO `YYYY-MM-DD` date string, a
display name, and the recurring flag (`name` and `type` are never read by the
verified operations; `type` is omitted). -/
structure Holiday where
  date : String
  name : String
  recurring : Bool
deriving DecidableEq, Repr

/-- BusinessRules as consumed by the business-day plugin: the set of workday
day-of-week indices and the holiday list. -/
structure BusinessRules where
  workdays : List Int
  holidays : List Holiday
deriving DecidableEq, Repr

/-- The plugin's default workdays, Monday to Friday. -/
def DEFAULT_WORKDAYS : List Int := [1, 2, 3, 4, 5]

/-- Default rules: Monday-Friday workdays, no holidays. -/
def defaultBusinessRules : BusinessRules := ⟨DEFAULT_WORKDAYS, []⟩

/-- `isWorkday`: `workdays.includes(date.day())`. -/
def isWorkday (d : Date) (workdays : List Int) : Bool :=
  workdays.contains d.dayOfWeek

/-- `parseInt(s.substring(start, start+2), 10)` on a holiday date string.
The inputs are syntactically valid date strings by the data-model invariant,
so the JS `NaN` case is modelled as 0. -/
def parseIntAt (s : String) (start : Nat) : Int :=
  (((s.drop start).take 2).toNat?.getD 0 : Int)

/-- Month encoded in a holiday's `YYYY-MM-DD` string, converted to the
0-indexed dayjs convention: `parseInt(date.substring(5,7)) - 1`. -/
def holidayMonthOf (h : Holiday) : Int := parseIntAt h.date 5 - 1

/-- Day-of-month encoded in a holiday's `YYYY-MM-DD` string:
`parseInt(date.substring(8,10))`. -/
def holidayDayOf (h : Holiday) : Int := parseIntAt h.date 8

/-- `findHoliday`: walk the configured holiday list in order; match on exact
`YYYY-MM-DD` string equality, or — for recurring holidays — on equal month
and day-of-month; return the first match. -/
def findHoliday (d : Date) : List Holiday → Option Holiday
  | [] => none
  | h :: rest =>
    if h.date == d.format then some h
    else if h.recurring && (d.month == holidayMonthOf h) && (d.day == holidayDayOf h) then some h
    else findHoliday d rest

/-- `isBusinessDay`: a workday that is not a holiday. -/
def isBusinessDay (d : Date) (rules : BusinessRules) : Bool :=
  isWorkday d rules.workdays && (findHoliday d rules.holidays).isNone

/-- The one-shot matching predicate described by the specification: exact
string equality, or recurring with equal month and day. -/
def holidayMatches (d : Date) (h : Holiday) : Bool :=
  h.date == d.format ||
    (h.recurring && (d.month == holidayMonthOf h) && (d.day == holidayDayOf h))

lemma findHoliday_eq_find (d : Date) :
    ∀ hs : List Holiday, findHoliday d hs = hs.find? (holidayMatches d)
  | [] => rfl
  | h :: rest => by
    simp only [findHoliday, List.find?, holidayMatches]
    cases hb1 : (h.date == d.format) <;>
      cases hb2 : (h.recurring && (d.month == holidayMonthOf h) && (d.day == holidayDayOf h)) <;>
        simp [hb1, hb2, findHoliday_eq_find d rest]

/-- One step of the day-walking loop of `businessDaysBetween`: while the
cursor is strictly before the upper date, step one day forward and count the
landed-on day when it is a business day.  The fuel is the exact day distance,
which is the number of iterations the source loop performs. -/
def businessDaysBetweenGo (rules : BusinessRules) (hi : Date) : Date → Nat → Int
  | _, 0 => 0
  | current, n + 1 =>
    if current.rata < hi.rata then
      (if isBusinessDay current.nextDay rules then 1 else 0) +
        businessDaysBetweenGo rules hi current.nextDay n
    else 0

/-- `businessDaysBetween(this, other)`: order the endpoints by timestamp,
count business days strictly after the lower endpoint up to the higher one,
and negate the count when `this` is not before `other`. -/
def businessDaysBetween (a b : Date) (rules : BusinessRules) : Int :=
  let lo := if a.rata < b.rata then a else b
  let hi := if a.rata < b.rata then b else a
  let count := businessDaysBetweenGo rules hi lo (hi.rata - lo.rata).toNat
  if a.rata < b.rata then count else -count

/-- Specification-side count: the number of business days among the `n` days
strictly after `lo` (the days `lo+1, .., lo+n`). -/
def countBusinessDaysAfter (rules : BusinessRules) (lo : Date) (n : Nat) : Int :=
  ((List.range n).countP (fun i => isBusinessDay (Date.nextDay^[i + 1] lo) rules) : Int)

lemma iterate_nextDay_valid {d : Date} (h : d.Valid) :
    ∀ n : Nat, (Date.nextDay^[n] d).Valid ∧ (Date.nextDay^[n] d).rata = d.rata + n
  | 0 => by
    simp only [Function.iterate_zero_apply, Nat.cast_zero, add_zero]
    exact ⟨h, trivial⟩
  | n + 1 => by
    obtain ⟨hv, hr⟩ := iterate_nextDay_valid h n
    rw [Function.iterate_succ_apply']
    exact ⟨nextDay_valid hv, by rw [rata_nextDay hv, hr]; push_cast; ring⟩

lemma businessDaysBetweenGo_eq_count (rules : BusinessRules) (hi : Date) (hhi : hi.Valid) :
    ∀ (n : Nat) (lo : Date), lo.Valid → lo.rata + n = hi.rata →
      businessDaysBetweenGo rules hi lo n = countBusinessDaysAfter rules lo n
  | 0, lo, _, _ => by simp [businessDaysBetweenGo, countBusinessDaysAfter]
  | n + 1, lo, hlo, hgap => by
    have hlt : lo.rata < hi.rata := by omega
    have hstep : lo.nextDay.rata + n = hi.rata := by rw [rata_nextDay hlo]; omega
    have ih := businessDaysBetweenGo_eq_count rules hi hhi n lo.nextDay (nextDay_valid hlo) hstep
    simp only [businessDaysBetweenGo, if_pos hlt, ih]
    unfold countBusinessDaysAfter
    rw [List.range_succ_eq_map]
    rw [List.countP_cons, List.countP_map]
    have hpred : ∀ i : Nat,
        isBusinessDay (Date.nextDay^[i + 1] lo.nextDay) rules
          = isBusinessDay (Date.nextDay^[Nat.succ i + 1] lo) rules := by
      intro i
      have : Date.nextDay^[Nat.succ i + 1] lo = Date.nextDay^[i + 1] lo.nextDay := by
        rw [show Nat.succ i + 1 = (i + 1) + 1 from rfl, Function.iterate_succ_apply]
      rw [this]
    have hcomp : (List.range n).countP
          ((fun i => isBusinessDay (Date.nextDay^[i + 1] lo) rules) ∘ Nat.succ)
        = (List.range n).countP (fun i => isBusinessDay (Date.nextDay^[i + 1] lo.nextDay) rules) := by
      apply List.countP_congr
      intro i _
      simp [Function.comp, hpred i]
    rw [hcomp]
    have h0 : Date.nextDay^[0 + 1] lo = lo.nextDay := by simp
    by_cases hb : isBusinessDay lo.nextDay rules
    · simp [hb, h0]
      omega
    · simp [hb, h0]

/-- C6: for every date `d` and rule set `r`, `isBusinessDay(d, r)` equals
`isWorkday(d, r.workdays) AND findHoliday(d, r.holidays) == null`, where
`findHoliday` returns the first holiday (in input list order) matching the
date either by exact `YYYY-MM-DD` string equality or — when recurring — by
equal month and day with the year ignored. -/
theorem c6_isBusinessDay_decomposition :
    ∀ (d : Date) (r : BusinessRules),
      isBusinessDay d r
          = (isWorkday d r.workdays && (r.holidays.find? (holidayMatches d)).isNone)
        ∧ findHoliday d r.holidays = r.holidays.find? (holidayMatches d) := by
  intro d r
  refine ⟨?_, findHoliday_eq_find d r.holidays⟩
  unfold isBusinessDay
  rw [findHoliday_eq_find]

/-- C7: `businessDaysBetween(a, b, rules)` counts the business days strictly
after `min(a,b)` up to and including `max(a,b)`, negated when `a > b`, so
`businessDaysBetween(a, a) = 0`; with the default Monday-Friday rules,
`businessDaysBetween('2024-01-15', '2024-01-19')` (Monday to Friday) is 4. -/
theorem c7_businessDaysBetween_spec :
    (∀ (a b : Date) (rules : BusinessRules), a.Valid → b.Valid →
        (a.rata ≤ b.rata →
          businessDaysBetween a b rules
            = countBusinessDaysAfter rules a (b.rata - a.rata).toNat)
        ∧ (b.rata < a.rata →
          businessDaysBetween a b rules
            = -countBusinessDaysAfter rules b (a.rata - b.rata).toNat)
        ∧ businessDaysBetween a a rules = 0)
    ∧ businessDaysBetween ⟨2024, 0, 15⟩ ⟨2024, 0, 19⟩ defaultBusinessRules = 4 := by
  constructor
  · intro a b rules ha hb
    refine ⟨?_, ?_, ?_⟩
    · intro hle
      unfold businessDaysBetween
      by_cases hlt : a.rata < b.rata
      · simp only [if_pos hlt]
        exact businessDaysBetweenGo_eq_count rules b hb _ a ha (by omega)
      · have heq : a.rata = b.rata := by omega
        have hn : (b.rata - a.rata).toNat = 0 := by omega
        have hn' : (a.rata - b.rata).toNat = 0 := by omega
        simp only [if_neg hlt, hn, hn']
        simp [businessDaysBetweenGo, countBusinessDaysAfter]
    · intro hgt
      have hlt : ¬ a.rata < b.rata := by omega
      unfold businessDaysBetween
      simp only [if_neg hlt]
      have := businessDaysBetweenGo_eq_count rules a ha _ b hb
        (show b.rata + ((a.rata - b.rata).toNat : Int) = a.rata by omega)
      rw [this]
    · unfold businessDaysBetween
      simp [businessDaysBetweenGo]
  · decide

/-- Witness for C7: concrete instantiation of the general theorem at the
Monday-to-Friday scenario, whose specification-side count evaluates to 4. -/
theorem c7_businessDaysBetween_witness :
    businessDaysBetween ⟨2024, 0, 15⟩ ⟨2024, 0, 19⟩ defaultBusinessRules
      = countBusinessDaysAfter defaultBusinessRules ⟨2024, 0, 15⟩ 4
    ∧ countBusinessDaysAfter defaultBusinessRules ⟨2024, 0, 15⟩ 4 = 4 := by
  constructor
  · have h := (c7_businessDaysBetween_spec.1 ⟨2024, 0, 15⟩ ⟨2024, 0, 19⟩
      defaultBusinessRules (by decide) (by decide)).1 (by decide)
    have hn : (Date.rata ⟨2024, 0, 19⟩ - Date.rata ⟨2024, 0, 15⟩).toNat = 4 := by decide
    rw [hn] at h
    exact h
  · decide

/-!
FiscalCalendar — embedding of the financial-quarter plugin
(`calculateFiscalYear`, `calculateFiscalQuarter`, `getFiscalYearStart`,
`getFiscalQuarterStart`, `getFiscalQuarterEnd`).
-/

/-- Fiscal-year configuration: the month (1-12) and day (1-31) on which the
fiscal year starts; the plugin resolves the optional `startDay` to 1. -/
structure FiscalYearConfig where
  startMonth : Int
  startDay : Int
deriving DecidableEq, Repr

/-- `calculateFiscalYear`: a date before the fiscal start within its calendar
year keeps the calendar year; for the default Jan-1 configuration the fiscal
year is the calendar year; otherwise it is the next calendar year. -/
def calculateFiscalYear (cfg : FiscalYearConfig) (date : Date) : Int :=
  if date.month < cfg.startMonth - 1
      ∨ (date.month = cfg.startMonth - 1 ∧ date.day < cfg.startDay) then date.year
  else if cfg.startMonth - 1 = 0 ∧ cfg.startDay = 1 then date.year
  else date.year + 1

/-- `calculateFiscalQuarter`: months elapsed since the fiscal start month
(wrapped by +12 when negative), divided by 3, plus 1. -/
def calculateFiscalQuarter (cfg : FiscalYearConfig) (date : Date) : Int :=
  (if date.month - (cfg.startMonth - 1) < 0 then date.month - (cfg.startMonth - 1) + 12
    else date.month - (cfg.startMonth - 1)) / 3 + 1

/-- `getFiscalYearStart`:
`date.year(startYear).month(fiscalStartMonth).date(fiscalStartDay).startOf('day')`,
with `startYear = fiscalYear - 1` whenever the configuration is not Jan 1. -/
def getFiscalYearStart (cfg : FiscalYearConfig) (date : Date) : Date :=
  ((date.setYear
      (if 0 < cfg.startMonth - 1 ∨ 1 < cfg.startDay
        then calculateFiscalYear cfg date - 1
        else calculateFiscalYear cfg date)).setMonth
    (cfg.startMonth - 1)).setDayOfMonth cfg.startDay

/-- `getFiscalQuarterStart`: fiscal year start plus `3 * (quarter - 1)` months. -/
def getFiscalQuarterStart (cfg : FiscalYearConfig) (date : Date) : Date :=
  (getFiscalYearStart cfg date).addMonths ((calculateFiscalQuarter cfg date - 1) * 3)

/-- `getFiscalQuarterEnd`: quarter start plus 3 months minus 1 day. -/
def getFiscalQuarterEnd (cfg : FiscalYearConfig) (date : Date) : Date :=
  ((getFiscalQuarterStart cfg date).addMonths 3).prevDay

lemma addMonths_day1 (y m k : Int) :
    (Date.mk y m 1).addMonths k = ⟨y + (m + k) / 12, (m + k) % 12, 1⟩ := by
  unfold Date.addMonths
  simp only [year_mk, month_mk, day_mk]
  rw [min_eq_left]
  have := daysInMonthOf_lb (y + (m + k) / 12) ((m + k) % 12)
  omega

lemma setChain_day1 (d : Date) (sy fs : Int) (hfs0 : 0 ≤ fs) (hfs1 : fs < 12) :
    ((d.setYear sy).setMonth fs).setDayOfMonth 1 = ⟨sy, fs, 1⟩ := by
  unfold Date.setYear Date.setMonth Date.setDayOfMonth
  have e1 : fs / 12 = 0 := by omega
  have e2 : fs % 12 = fs := by omega
  simp only [year_mk, month_mk, day_mk, e1, e2]
  have hdim := daysInMonthOf_lb (sy + 0) fs
  rw [if_pos (show (1:Int) ≤ daysInMonthOf (sy + 0) fs by omega)]
  simp only [Date.mk.injEq, and_true]
  omega

lemma getFiscalYearStart_day1 (cfg : FiscalYearConfig) (d : Date)
    (hm1 : 1 ≤ cfg.startMonth) (hm2 : cfg.startMonth ≤ 12) (hd : cfg.startDay = 1)
    (hv : d.Valid) :
    getFiscalYearStart cfg d
      = ⟨if d.month < cfg.startMonth - 1 then d.year - 1 else d.year,
          cfg.startMonth - 1, 1⟩ := by
  obtain ⟨h1, h2, h3, h4⟩ := hv
  unfold getFiscalYearStart
  rw [hd, setChain_day1 _ _ _ (by omega) (by omega)]
  unfold calculateFiscalYear
  rw [hd]
  simp only [Date.mk.injEq, and_true]
  split_ifs <;> omega

/-- C1 counterexample: for the valid fiscal configuration
`startMonth = 1, startDay = 31` and the date 2024-01-15, the fiscal quarter
bracket fails: `calculateFiscalQuarter` ignores `startDay`, placing the date
in Q1 of the fiscal year that started 2023-01-31, whose quarter end
(2023-04-29) lies long before the date. -/
theorem c1_bracket_counterexample :
    ¬ ((getFiscalQuarterStart ⟨1, 31⟩ ⟨2024, 0, 15⟩).rata ≤ (Date.mk 2024 0 15).rata
        ∧ (Date.mk 2024 0 15).rata ≤ (getFiscalQuarterEnd ⟨1, 31⟩ ⟨2024, 0, 15⟩).rata) := by
  decide

/-- C1 (amended): the fiscal quarter bracket
`fiscalQuarterStart(d) ≤ d ≤ fiscalQuarterEnd(d)` holds for every valid date
under every fiscal configuration whose `startDay` is 1 (in particular the
default and all shipped presets except UK); it can fail when `startDay > 1`
because the quarter is computed from the month alone. -/
theorem c1_fiscal_quarter_bracket (cfg : FiscalYearConfig) (d : Date)
    (hm1 : 1 ≤ cfg.startMonth) (hm2 : cfg.startMonth ≤ 12) (hd : cfg.startDay = 1)
    (hv : d.Valid) :
    (getFiscalQuarterStart cfg d).rata ≤ d.rata
      ∧ d.rata ≤ (getFiscalQuarterEnd cfg d).rata := by
  have h1 := hv.1
  have h2 := hv.2.1
  have h3 := hv.2.2.1
  have h4 := hv.2.2.2
  have hfys := getFiscalYearStart_day1 cfg d hm1 hm2 hd hv
  have hfysv : (getFiscalYearStart cfg d).Valid := by
    rw [hfys]
    have := daysInMonthOf_lb
      (if d.month < cfg.startMonth - 1 then d.year - 1 else d.year) (cfg.startMonth - 1)
    refine ⟨?_, ?_, ?_, ?_⟩ <;> simp only [year_mk, month_mk, day_mk] <;> omega
  have hqs : getFiscalQuarterStart cfg d
      = ⟨(if d.month < cfg.startMonth - 1 then d.year - 1 else d.year)
            + (cfg.startMonth - 1 + (calculateFiscalQuarter cfg d - 1) * 3) / 12,
          (cfg.startMonth - 1 + (calculateFiscalQuarter cfg d - 1) * 3) % 12, 1⟩ := by
    unfold getFiscalQuarterStart
    rw [hfys, addMonths_day1]
  have hqsv : (getFiscalQuarterStart cfg d).Valid := by
    unfold getFiscalQuarterStart
    exact addMonths_valid hfysv _
  have hQ2 : (getFiscalQuarterStart cfg d).addMonths 3
      = ⟨((if d.month < cfg.startMonth - 1 then d.year - 1 else d.year)
            + (cfg.startMonth - 1 + (calculateFiscalQuarter cfg d - 1) * 3) / 12)
            + ((cfg.startMonth - 1 + (calculateFiscalQuarter cfg d - 1) * 3) % 12 + 3) / 12,
          ((cfg.startMonth - 1 + (calculateFiscalQuarter cfg d - 1) * 3) % 12 + 3) % 12,
          1⟩ := by
    rw [hqs, addMonths_day1]
  have hQ2v : ((getFiscalQuarterStart cfg d).addMonths 3).Valid := addMonths_valid hqsv 3
  constructor
  · by_contra hc
    push_neg at hc
    have hlex := (rata_lt_iff_lexLt hv hqsv).mp hc
    rw [hqs] at hlex
    unfold calculateFiscalQuarter at hlex
    unfold Date.lexLt at hlex
    simp only [year_mk, month_mk, day_mk] at hlex
    split_ifs at hlex <;> omega
  · unfold getFiscalQuarterEnd
    rw [rata_prevDay hQ2v]
    have hlt : d.rata < ((getFiscalQuarterStart cfg d).addMonths 3).rata := by
      rw [rata_lt_iff_lexLt hv hQ2v, hQ2]
      unfold calculateFiscalQuarter
      unfold Date.lexLt
      simp only [year_mk, month_mk, day_mk]
      split_ifs <;> omega
    omega

/-- Witness for C1 (amended): the bracket at the Japan-style Apr-1 fiscal
configuration and the date 2024-02-15 (a date in the wrap-around branch). -/
theorem c1_fiscal_quarter_bracket_witness :
    (getFiscalQuarterStart ⟨4, 1⟩ ⟨2024, 1, 15⟩).rata ≤ (Date.mk 2024 1 15).rata
      ∧ (Date.mk 2024 1 15).rata ≤ (getFiscalQuarterEnd ⟨4, 1⟩ ⟨2024, 1, 15⟩).rata :=
  c1_fiscal_quarter_bracket ⟨4, 1⟩ ⟨2024, 1, 15⟩ (by decide) (by decide) (by decide) (by decide)

lemma startMonth_mk (a b : Int) : (FiscalYearConfig.mk a b).startMonth = a := rfl

lemma startDay_mk (a b : Int) : (FiscalYearConfig.mk a b).startDay = b := rfl

/-- C10: `calculateFiscalQuarter` never reads the configured `startDay`
(first conjunct, any two `startDay` values give the same quarter), and on
in-range inputs the quarter is exactly the wrapped month distance from the
start month divided by 3, plus 1 (second conjunct). -/
theorem c10_fiscal_quarter_ignores_start_day :
    (∀ (d : Date) (sm d1 d2 : Int),
        calculateFiscalQuarter ⟨sm, d1⟩ d = calculateFiscalQuarter ⟨sm, d2⟩ d)
    ∧ (∀ (d : Date) (sm sd : Int), 0 ≤ d.month → d.month < 12 → 1 ≤ sm → sm ≤ 12 →
        calculateFiscalQuarter ⟨sm, sd⟩ d = (d.month - (sm - 1)) % 12 / 3 + 1) := by
  constructor
  · intro d sm d1 d2
    rfl
  · intro d sm sd hm0 hm1 hs0 hs1
    unfold calculateFiscalQuarter
    simp only [startMonth_mk]
    split_ifs <;> omega

/-- Witness for C10: both conjuncts instantiated at 2024-05-20 with an
Oct-1 fiscal year and two different `startDay` values. -/
theorem c10_fiscal_quarter_ignores_start_day_witness :
    calculateFiscalQuarter ⟨10, 1⟩ ⟨2024, 4, 20⟩ = calculateFiscalQuarter ⟨10, 25⟩ ⟨2024, 4, 20⟩
      ∧ calculateFiscalQuarter ⟨10, 1⟩ ⟨2024, 4, 20⟩
          = ((Date.mk 2024 4 20).month - (10 - 1)) % 12 / 3 + 1 :=
  ⟨c10_fiscal_quarter_ignores_start_day.1 ⟨2024, 4, 20⟩ 10 1 25,
    c10_fiscal_quarter_ignores_start_day.2 ⟨2024, 4, 20⟩ 10 1
      (by decide) (by decide) (by decide) (by decide)⟩

/-!
BillingCycleEngine — embedding of `BillingDateService`
(`adjustForNonBusinessDay`, `adjustBillingDay`, `getNextBillingDate`,
`getTrialPeriodInfo`).
-/

/-- Subscription cycle kinds. -/
inductive SubscriptionCycle where
  | weekly
  | monthly
  | quarterly
  | yearly
deriving DecidableEq, Repr

/-- `getCycleMonths`: cycle duration in months (weekly handled separately). -/
def getCycleMonths : SubscriptionCycle → Int
  | .weekly => 0
  | .monthly => 1
  | .quarterly => 3
  | .yearly => 12

/-- The resolved `BillingServiceConfig` (all defaults applied by the
constructor). -/
structure BillingServiceConfig where
  defaultBillingDay : Int
  skipWeekends : Bool
  skipHolidays : Bool
  holidays : List String
  gracePeriodDays : Int
  defaultTrialDays : Int
deriving DecidableEq, Repr

namespace BillingDateService

/-- The service's default configuration. -/
def defaultConfig : BillingServiceConfig := ⟨1, false, false, [], 0, 0⟩

/-- `isHoliday`: membership of the formatted date in the configured
holiday-string list. -/
def isHoliday (cfg : BillingServiceConfig) (d : Date) : Bool :=
  cfg.holidays.contains d.format

/-- The weekend-skip step used by `adjustForNonBusinessDay`:
Sunday moves 1 day forward, Saturday moves 2 days forward. -/
def weekendShift (d : Date) : Date :=
  if d.dayOfWeek = 0 then d.nextDay
  else if d.dayOfWeek = 6 then d.nextDay.nextDay
  else d

/-- The holiday-deferral `while` loop of `adjustForNonBusinessDay`, with the
source's `attempts < 30` guard rendered as 30 units of fuel: each iteration
requires the current date to be a holiday, moves one day forward, and
re-applies the weekend skip when configured. -/
def holidayDeferLoop (cfg : BillingServiceConfig) : Nat → Date → Date
  | 0, a => a
  | f + 1, a =>
    if isHoliday cfg a then
      holidayDeferLoop cfg f
        (if cfg.skipWeekends then weekendShift a.nextDay else a.nextDay)
    else a

/-- `adjustForNonBusinessDay`: optional weekend skip, then the bounded
holiday-deferral loop (entered only when holiday skipping is on and the
holiday list is nonempty). -/
def adjustForNonBusinessDay (cfg : BillingServiceConfig) (d : Date) : Date :=
  let a := if cfg.skipWeekends then weekendShift d else d
  if cfg.skipHolidays ∧ cfg.holidays ≠ [] then holidayDeferLoop cfg 30 a else a

/-- `adjustBillingDay`: clamp the target day to the month length, then set
the day-of-month. -/
def adjustBillingDay (d : Date) (targetDay : Int) : Date :=
  d.setDayOfMonth (min targetDay d.daysInMonth)

/-- The monthly/quarterly/yearly advance loop of `getNextBillingDate`: while
the candidate is on or before the reference date, add the cycle's months
(`months || 1` in the source) and re-clamp to the billing day.  The source
loop needs at most one iteration (proved in `c2`), so any fuel beyond 2 is
immaterial; 24 is used. -/
def nextBillingLoop (months targetDay rfrom : Int) : Nat → Date → Date
  | 0, n => n
  | f + 1, n =>
    if n.rata ≤ rfrom then
      nextBillingLoop months targetDay rfrom f
        (adjustBillingDay (n.addMonths (if months = 0 then 1 else months)) targetDay)
    else n

/-- `getNextBillingDate`: weekly adds 7 days; other cycles start from
`from + 1 day` floored to the month start, clamp to the billing day, advance
by whole cycles while not strictly after `from`, and defer at the end. -/
def getNextBillingDate (cfg : BillingServiceConfig) (fromDate : Date)
    (cycle : SubscriptionCycle) (billingDay : Option Int) : Date :=
  let day := billingDay.getD cfg.defaultBillingDay
  if cycle = .weekly then
    adjustForNonBusinessDay cfg (Date.nextDay^[7] fromDate)
  else
    adjustForNonBusinessDay cfg
      (nextBillingLoop (getCycleMonths cycle) day fromDate.rata 24
        (adjustBillingDay fromDate.nextDay.startOfMonth day))

end BillingDateService

lemma weekendShift_mono {d : Date} (h : d.Valid) :
    d.rata ≤ (BillingDateService.weekendShift d).rata
      ∧ (BillingDateService.weekendShift d).Valid := by
  unfold BillingDateService.weekendShift
  split_ifs with h0 h6
  · exact ⟨by rw [rata_nextDay h]; omega, nextDay_valid h⟩
  · have hv1 := nextDay_valid h
    exact ⟨by rw [rata_nextDay hv1, rata_nextDay h]; omega, nextDay_valid hv1⟩
  · exact ⟨le_refl _, h⟩

lemma holidayDeferLoop_mono (cfg : BillingServiceConfig) :
    ∀ (f : Nat) (d : Date), d.Valid →
      d.rata ≤ (BillingDateService.holidayDeferLoop cfg f d).rata
        ∧ (BillingDateService.holidayDeferLoop cfg f d).Valid
  | 0, d, h => ⟨le_refl _, h⟩
  | f + 1, d, h => by
    unfold BillingDateService.holidayDeferLoop
    by_cases hh : BillingDateService.isHoliday cfg d
    · rw [if_pos hh]
      have hstep :
          d.rata ≤ (if cfg.skipWeekends then BillingDateService.weekendShift d.nextDay
              else d.nextDay).rata
            ∧ (if cfg.skipWeekends then BillingDateService.weekendShift d.nextDay
              else d.nextDay).Valid := by
        by_cases hw : cfg.skipWeekends
        · rw [if_pos hw]
          obtain ⟨wa, wb⟩ := weekendShift_mono (nextDay_valid h)
          have := rata_nextDay h
          exact ⟨by omega, wb⟩
        · rw [if_neg hw]
          exact ⟨by rw [rata_nextDay h]; omega, nextDay_valid h⟩
      obtain ⟨s1, s2⟩ := hstep
      obtain ⟨r1, r2⟩ := holidayDeferLoop_mono cfg f _ s2
      exact ⟨le_trans s1 r1, r2⟩
    · rw [if_neg hh]
      exact ⟨le_refl _, h⟩

lemma adjustForNonBusinessDay_mono (cfg : BillingServiceConfig) {d : Date} (h : d.Valid) :
    d.rata ≤ (BillingDateService.adjustForNonBusinessDay cfg d).rata := by
  simp only [BillingDateService.adjustForNonBusinessDay]
  by_cases hw : cfg.skipWeekends
  · obtain ⟨w1, w2⟩ := weekendShift_mono h
    rw [if_pos hw]
    by_cases hcond : cfg.skipHolidays = true ∧ cfg.holidays ≠ []
    · rw [if_pos hcond]
      obtain ⟨l1, l2⟩ := holidayDeferLoop_mono cfg 30 _ w2
      omega
    · rw [if_neg hcond]
      exact w1
  · rw [if_neg hw]
    by_cases hcond : cfg.skipHolidays = true ∧ cfg.holidays ≠ []
    · rw [if_pos hcond]
      exact (holidayDeferLoop_mono cfg 30 d h).1
    · rw [if_neg hcond]

lemma adjustBillingDay_eq (d : Date) (t : Int) :
    BillingDateService.adjustBillingDay d t
      = ⟨d.year, d.month, min t (daysInMonthOf d.year d.month)⟩ := by
  unfold BillingDateService.adjustBillingDay Date.setDayOfMonth Date.daysInMonth
  rw [if_pos (min_le_right _ _)]

lemma adjustBillingDay_valid {d : Date} (h : d.Valid) {t : Int} (ht : 1 ≤ t) :
    (BillingDateService.adjustBillingDay d t).Valid := by
  rw [adjustBillingDay_eq]
  obtain ⟨h1, h2, h3, h4⟩ := h
  have := daysInMonthOf_lb d.year d.month
  refine ⟨?_, ?_, ?_, ?_⟩ <;> simp only [year_mk, month_mk, day_mk, le_min_iff, min_le_iff] <;>
    omega

lemma startOfMonth_valid {d : Date} (h : d.Valid) : d.startOfMonth.Valid := by
  obtain ⟨h1, h2, h3, h4⟩ := h
  have := daysInMonthOf_lb d.year d.month
  refine ⟨?_, ?_, ?_, ?_⟩ <;> simp only [Date.startOfMonth, year_mk, month_mk, day_mk] <;> omega

lemma nextDay_monthIndex_ge {d : Date} (h : d.Valid) :
    12 * d.year + d.month ≤ 12 * d.nextDay.year + d.nextDay.month := by
  obtain ⟨h1, h2, h3, h4⟩ := h
  unfold Date.nextDay
  split_ifs <;> simp only [year_mk, month_mk] <;> omega

lemma nextBillingLoop_exit {months targetDay rfrom : Int} {f : Nat} {n : Date}
    (h : rfrom < n.rata) :
    BillingDateService.nextBillingLoop months targetDay rfrom f n = n := by
  cases f
  · rfl
  · unfold BillingDateService.nextBillingLoop
    rw [if_neg (by omega)]

lemma nextBillingLoop_succ (months targetDay rfrom : Int) (f : Nat) (n : Date) :
    BillingDateService.nextBillingLoop months targetDay rfrom (f + 1) n
      = if n.rata ≤ rfrom then
          BillingDateService.nextBillingLoop months targetDay rfrom f
            (BillingDateService.adjustBillingDay
              (n.addMonths (if months = 0 then 1 else months)) targetDay)
        else n := rfl

/-- C2: for the month-based cycles, `getNextBillingDate` seeds the candidate
at `from + 1 day` floored to the month start and clamped to the billing day,
advances by whole cycles while not strictly after `from`, and always returns
a date strictly after the input; in particular
`getNextBillingDate('2024-01-31', 'monthly', 31)` is 2024-02-29 (February
clamp in a leap year). -/
theorem c2_next_billing_date_strictly_after :
    (∀ (cfg : BillingServiceConfig) (fromDate : Date) (cycle : SubscriptionCycle)
        (billingDay : Option Int),
        fromDate.Valid → cycle ≠ SubscriptionCycle.weekly →
        1 ≤ billingDay.getD cfg.defaultBillingDay →
        fromDate.rata
          < (BillingDateService.getNextBillingDate cfg fromDate cycle billingDay).rata)
    ∧ BillingDateService.getNextBillingDate BillingDateService.defaultConfig
        ⟨2024, 0, 31⟩ SubscriptionCycle.monthly (some 31) = ⟨2024, 1, 29⟩ := by
  constructor
  · intro cfg fromDate cycle bd hv hw hday
    have hm1 : 1 ≤ getCycleMonths cycle := by
      cases cycle
      · exact absurd rfl hw
      all_goals simp [getCycleMonths]
    have h1 := hv.1
    have h2 := hv.2.1
    have h3 := hv.2.2.1
    have h4 := hv.2.2.2
    have hnfv : fromDate.nextDay.Valid := nextDay_valid hv
    have hn0v : (BillingDateService.adjustBillingDay fromDate.nextDay.startOfMonth
        (bd.getD cfg.defaultBillingDay)).Valid :=
      adjustBillingDay_valid (startOfMonth_valid hnfv) hday
    simp only [BillingDateService.getNextBillingDate]
    rw [if_neg hw]
    have hmain : (BillingDateService.nextBillingLoop (getCycleMonths cycle)
          (bd.getD cfg.defaultBillingDay) fromDate.rata 24
          (BillingDateService.adjustBillingDay fromDate.nextDay.startOfMonth
            (bd.getD cfg.defaultBillingDay))).Valid
        ∧ fromDate.rata < (BillingDateService.nextBillingLoop (getCycleMonths cycle)
          (bd.getD cfg.defaultBillingDay) fromDate.rata 24
          (BillingDateService.adjustBillingDay fromDate.nextDay.startOfMonth
            (bd.getD cfg.defaultBillingDay))).rata := by
      set n0 := BillingDateService.adjustBillingDay fromDate.nextDay.startOfMonth
        (bd.getD cfg.defaultBillingDay) with hn0def
      by_cases hc : n0.rata ≤ fromDate.rata
      · rw [show (24 : Nat) = 23 + 1 from rfl, nextBillingLoop_succ, if_pos hc]
        rw [if_neg (show ¬ getCycleMonths cycle = 0 by omega)]
        set n1 := BillingDateService.adjustBillingDay (n0.addMonths (getCycleMonths cycle))
          (bd.getD cfg.defaultBillingDay) with hn1def
        have hn1v : n1.Valid := adjustBillingDay_valid (addMonths_valid hn0v _) hday
        have hn1lt : fromDate.rata < n1.rata := by
          apply rata_lt_of_lexLt hv hn1v
          have hidx := nextDay_monthIndex_ge hv
          have hn0y : n0.year = fromDate.nextDay.year := by
            rw [hn0def, adjustBillingDay_eq]
            rfl
          have hn0m : n0.month = fromDate.nextDay.month := by
            rw [hn0def, adjustBillingDay_eq]
            rfl
          have hn1y : n1.year = n0.year + (n0.month + getCycleMonths cycle) / 12 := by
            rw [hn1def, adjustBillingDay_eq]
            unfold Date.addMonths
            rfl
          have hn1m : n1.month = (n0.month + getCycleMonths cycle) % 12 := by
            rw [hn1def, adjustBillingDay_eq]
            unfold Date.addMonths
            rfl
          unfold Date.lexLt
          rw [hn1y, hn1m, hn0y, hn0m]
          omega
        rw [nextBillingLoop_exit hn1lt]
        exact ⟨hn1v, hn1lt⟩
      · push_neg at hc
        rw [nextBillingLoop_exit hc]
        exact ⟨hn0v, hc⟩
    have := adjustForNonBusinessDay_mono cfg hmain.1
    omega
  · decide

/-- Witness for C2: the general strictness applied to the concrete
scenario's inputs. -/
theorem c2_next_billing_date_witness :
    (Date.mk 2024 0 31).rata
      < (BillingDateService.getNextBillingDate BillingDateService.defaultConfig
          ⟨2024, 0, 31⟩ SubscriptionCycle.monthly (some 31)).rata :=
  c2_next_billing_date_strictly_after.1 BillingDateService.defaultConfig ⟨2024, 0, 31⟩
    SubscriptionCycle.monthly (some 31) (by decide) (by decide) (by decide)

/-- `addDays`, the dayjs `add(n, 'day')` for an arbitrary integer count. -/
def Date.addDays (d : Date) (n : Int) : Date :=
  if 0 ≤ n then Date.nextDay^[n.toNat] d else Date.prevDay^[(-n).toNat] d

/-- The `TrialPeriodInfo` value object computed by
`BillingDateService.getTrialPeriodInfo`. -/
structure TrialPeriodInfo where
  isInTrial : Bool
  trialStartDate : Date
  trialEndDate : Date
  daysRemaining : Int
  trialProgress : Rat
deriving DecidableEq, Repr

namespace BillingDateService

/-- `getTrialPeriodInfo`: `daysSinceStart = current.diff(start, 'day')`
(a timestamp difference, negative when `current` precedes `start`);
`isInTrial = daysSinceStart >= 0 && daysSinceStart < trial`;
`daysRemaining = max(0, trial - daysSinceStart)`;
`trialProgress = Math.min(1, daysSinceStart / trial)`. -/
def getTrialPeriodInfo (cfg : BillingServiceConfig) (subscriptionStart currentDate : Date)
    (trialDays : Option Int) : TrialPeriodInfo :=
  { isInTrial := decide (0 ≤ currentDate.rata - subscriptionStart.rata
      ∧ currentDate.rata - subscriptionStart.rata < trialDays.getD cfg.defaultTrialDays),
    trialStartDate := subscriptionStart,
    trialEndDate := subscriptionStart.addDays (trialDays.getD cfg.defaultTrialDays),
    daysRemaining := max 0 (trialDays.getD cfg.defaultTrialDays
      - (currentDate.rata - subscriptionStart.rata)),
    trialProgress := min 1 (((currentDate.rata - subscriptionStart.rata : Int) : Rat)
      / ((trialDays.getD cfg.defaultTrialDays : Int) : Rat)) }

end BillingDateService

/-- C3 counterexample: with subscription start 2024-01-10, current date
2024-01-05 (five days before the start) and a 10-day trial, the computed
`trialProgress` is negative — the code clamps only from above
(`Math.min(1, …)`), so the claimed lower clamp at 0 does not hold. -/
theorem c3_trial_progress_counterexample :
    (BillingDateService.getTrialPeriodInfo BillingDateService.defaultConfig
        ⟨2024, 0, 10⟩ ⟨2024, 0, 5⟩ (some 10)).trialProgress < 0 := by
  have h : Date.rata ⟨2024, 0, 5⟩ - Date.rata ⟨2024, 0, 10⟩ = -5 := by decide
  simp only [BillingDateService.getTrialPeriodInfo, Option.getD_some, h]
  norm_num [min_def]

/-- C3 (amended): `isInTrial` holds iff `0 ≤ elapsed < trialDays` and
`daysRemaining = max(0, trialDays - elapsed)` as claimed, but
`trialProgress = min(1, elapsed / trialDays)` is clamped only from above:
it never exceeds 1, is nonnegative whenever `current ≥ start`, and is
negative when `current` precedes `start`. -/
theorem c3_trial_period_info (cfg : BillingServiceConfig) (s c : Date) (t : Int)
    (ht : 0 < t) :
    ((BillingDateService.getTrialPeriodInfo cfg s c (some t)).isInTrial = true
        ↔ (0 ≤ c.rata - s.rata ∧ c.rata - s.rata < t))
      ∧ (BillingDateService.getTrialPeriodInfo cfg s c (some t)).daysRemaining
          = max 0 (t - (c.rata - s.rata))
      ∧ (BillingDateService.getTrialPeriodInfo cfg s c (some t)).trialProgress
          = min 1 (((c.rata - s.rata : Int) : Rat) / ((t : Int) : Rat))
      ∧ (BillingDateService.getTrialPeriodInfo cfg s c (some t)).trialProgress ≤ 1
      ∧ (0 ≤ c.rata - s.rata →
          0 ≤ (BillingDateService.getTrialPeriodInfo cfg s c (some t)).trialProgress) := by
  refine ⟨?_, rfl, rfl, ?_, ?_⟩
  · simp [BillingDateService.getTrialPeriodInfo]
  · exact min_le_left _ _
  · intro hel
    simp only [BillingDateService.getTrialPeriodInfo, Option.getD_some]
    refine le_min (by norm_num) ?_
    apply div_nonneg
    · exact_mod_cast hel
    · exact_mod_cast le_of_lt ht

/-- Witness for C3 (amended): instantiation at start 2024-01-01, current
2024-01-05, trial length 14. -/
theorem c3_trial_period_info_witness :
    ((BillingDateService.getTrialPeriodInfo BillingDateService.defaultConfig
          ⟨2024, 0, 1⟩ ⟨2024, 0, 5⟩ (some 14)).isInTrial = true
        ↔ (0 ≤ (Date.mk 2024 0 5).rata - (Date.mk 2024 0 1).rata
            ∧ (Date.mk 2024 0 5).rata - (Date.mk 2024 0 1).rata < 14))
      ∧ (BillingDateService.getTrialPeriodInfo BillingDateService.defaultConfig
            ⟨2024, 0, 1⟩ ⟨2024, 0, 5⟩ (some 14)).daysRemaining
          = max 0 (14 - ((Date.mk 2024 0 5).rata - (Date.mk 2024 0 1).rata))
      ∧ (BillingDateService.getTrialPeriodInfo BillingDateService.defaultConfig
            ⟨2024, 0, 1⟩ ⟨2024, 0, 5⟩ (some 14)).trialProgress
          = min 1 ((((Date.mk 2024 0 5).rata - (Date.mk 2024 0 1).rata : Int) : Rat)
              / ((14 : Int) : Rat))
      ∧ (BillingDateService.getTrialPeriodInfo BillingDateService.defaultConfig
            ⟨2024, 0, 1⟩ ⟨2024, 0, 5⟩ (some 14)).trialProgress ≤ 1
      ∧ (0 ≤ (Date.mk 2024 0 5).rata - (Date.mk 2024 0 1).rata →
          0 ≤ (BillingDateService.getTrialPeriodInfo BillingDateService.defaultConfig
            ⟨2024, 0, 1⟩ ⟨2024, 0, 5⟩ (some 14)).trialProgress) :=
  c3_trial_period_info BillingDateService.defaultConfig ⟨2024, 0, 1⟩ ⟨2024, 0, 5⟩ 14
    (by norm_num)

lemma holidayDeferLoop_all_holidays (cfg : BillingServiceConfig)
    (hw : cfg.skipWeekends = false) :
    ∀ (f : Nat) (d : Date),
      (∀ i : Nat, i < f → BillingDateService.isHoliday cfg (Date.nextDay^[i] d) = true) →
      BillingDateService.holidayDeferLoop cfg f d = Date.nextDay^[f] d
  | 0, d, _ => by simp [BillingDateService.holidayDeferLoop]
  | f + 1, d, hall => by
    have h0 : BillingDateService.isHoliday cfg d = true := by
      have := hall 0 (by omega)
      simpa using this
    unfold BillingDateService.holidayDeferLoop
    rw [if_pos h0, hw]
    simp only [Bool.false_eq_true, if_false]
    have hrec := holidayDeferLoop_all_holidays cfg hw f d.nextDay (by
      intro i hi
      have := hall (i + 1) (by omega)
      rwa [Function.iterate_succ_apply] at this)
    rw [hrec, ← Function.iterate_succ_apply]

/-- C4: the holiday-deferral step is bounded by exactly 30 iterations and is
total: when every day it can reach is a holiday — the bound-exhausting case —
`adjustForNonBusinessDay` walks exactly 30 days forward and returns that
date, which may itself still be a holiday, without signalling any error. -/
theorem c4_holiday_deferral_bounded (cfg : BillingServiceConfig) (d : Date)
    (hw : cfg.skipWeekends = false) (hh : cfg.skipHolidays = true)
    (hall : ∀ i : Nat, i < 30 → BillingDateService.isHoliday cfg (Date.nextDay^[i] d) = true) :
    BillingDateService.adjustForNonBusinessDay cfg d = Date.nextDay^[30] d := by
  have hne : cfg.holidays ≠ [] := by
    intro he
    have h0 := hall 0 (by omega)
    rw [show Date.nextDay^[0] d = d from rfl] at h0
    unfold BillingDateService.isHoliday at h0
    rw [he] at h0
    simp [List.contains] at h0
  simp only [BillingDateService.adjustForNonBusinessDay, hw, Bool.false_eq_true, if_false]
  rw [if_pos ⟨hh, hne⟩]
  exact holidayDeferLoop_all_holidays cfg hw 30 d hall

/-- Witness for C4: a configuration whose holiday list covers the 30 days
from 2024-01-01 onward; the deferral walks the full 30 days and stops. -/
theorem c4_holiday_deferral_bounded_witness :
    BillingDateService.adjustForNonBusinessDay
        ⟨1, false, true,
          (List.range 30).map (fun i => Date.format ⟨2024, 0, (i : Int) + 1⟩), 0, 0⟩
        ⟨2024, 0, 1⟩
      = Date.nextDay^[30] ⟨2024, 0, 1⟩ :=
  c4_holiday_deferral_bounded
    ⟨1, false, true,
      (List.range 30).map (fun i => Date.format ⟨2024, 0, (i : Int) + 1⟩), 0, 0⟩
    ⟨2024, 0, 1⟩ rfl rfl (by decide)

/-!
AnalyticsRangeEngine — embedding of the date-range operations
(the data-range plugin's standalone `mergeRanges`, the analytics service's
`mergeRanges`, and `splitIntoBuckets`).
-/

/-- A DateRange value: `start` and `stop` embed the source's `start`/`end`
fields (both normalized by `startOf('day')`/`endOf('day')`, the identity at
day resolution); `label` embeds the optional range label. -/
structure DateRange where
  start : Date
  stop : Date
  label : Option String
deriving DecidableEq, Repr

lemma range_start_mk (a b : Date) (l : Option String) : (DateRange.mk a b l).start = a := rfl

lemma range_stop_mk (a b : Date) (l : Option String) : (DateRange.mk a b l).stop = b := rfl

/-- The sort used by both merge functions:
`[...ranges].sort((a, b) => a.start.valueOf() - b.start.valueOf())`, i.e. a
stable ascending sort by the start timestamp. -/
def sortByStart (rs : List DateRange) : List DateRange :=
  rs.mergeSort (fun a b => a.start.rata ≤ b.start.rata)

/-- The accumulation loop of the standalone `mergeRanges` of the data-range
plugin: the next range is merged into the running one when
`current.start.isBefore(last.end.add(2, 'day'))`.  `start` is a
start-of-day instant and `end` an end-of-day instant (the DateRange
invariant), so at day resolution the start-of-day of day `s` is before the
end-of-day of day `y + 2` exactly when `s ≤ y + 2`: ranges merge when they
overlap, are adjacent, or are separated by a gap of at most one day.  A
merge keeps the running start, takes the later end, and labels the result
`'Merged Range'`. -/
def mergeRangesGo : DateRange → List DateRange → List DateRange
  | last, [] => [last]
  | last, current :: rest =>
    if current.start.rata ≤ last.stop.rata + 2 then
      mergeRangesGo
        ⟨last.start,
          if last.stop.rata < current.stop.rata then current.stop else last.stop,
          some "Merged Range"⟩ rest
    else last :: mergeRangesGo current rest

/-- The data-range plugin's `mergeRanges`: empty input yields the empty
list; otherwise sort by start and run the merge loop. -/
def mergeRanges (ranges : List DateRange) : List DateRange :=
  match sortByStart ranges with
  | [] => []
  | first :: rest => mergeRangesGo first rest

namespace AnalyticsRangeService

/-- The analytics service's `mergeRanges`: merging an empty list throws
(`Cannot merge empty ranges array`, embedded as `Except.error`); otherwise it
collapses everything into one range spanning the earliest start and the
latest end, labelled `'Merged Range'`.  The source checks
`ranges.length === 0` before sorting; since the sort is a permutation, that
is the same as matching the sorted list against `[]`. -/
def mergeRanges (ranges : List DateRange) : Except String DateRange :=
  match sortByStart ranges with
  | [] => Except.error "Cannot merge empty ranges array"
  | first :: rest =>
    Except.ok ⟨first.start,
      (first :: rest).foldl (fun mx r => if mx.rata < r.stop.rata then r.stop else mx)
        first.stop,
      some "Merged Range"⟩

end AnalyticsRangeService

lemma mergeRanges_nil : mergeRanges [] = [] := by
  unfold mergeRanges sortByStart
  rw [List.mergeSort_nil]

/-- C5 counterexample: the data-range plugin's standalone `mergeRanges`
applied to the empty list returns the empty list — a fallback value, not an
error — so the claim that `mergeRanges([])` always fails does not hold for
this function. -/
theorem c5_empty_merge_counterexample : mergeRanges [] = [] := mergeRanges_nil

/-- C5 (amended): of the two `mergeRanges` in the repository, only the
analytics service's method fails on empty input (with the
`Cannot merge empty ranges array` error); the data-range plugin's standalone
`mergeRanges` returns the empty list as a fallback. -/
theorem c5_empty_merge_behaviour :
    AnalyticsRangeService.mergeRanges [] = Except.error "Cannot merge empty ranges array"
      ∧ mergeRanges [] = [] := by
  constructor
  · unfold AnalyticsRangeService.mergeRanges sortByStart
    rw [List.mergeSort_nil]
  · exact mergeRanges_nil

/-- Ascending order of range starts (the sort key of `mergeRanges`). -/
def rangeStartLe (a b : DateRange) : Prop := a.start.rata ≤ b.start.rata

instance : IsTrans DateRange rangeStartLe :=
  ⟨fun _ _ _ hab hbc => le_trans hab hbc⟩

/-- The separation invariant of merged output: consecutive ranges are in
start order and the later one starts at least 3 days after the earlier one
ends (a gap of at least two days), so the merge condition can never fire
again. -/
def rangeSep (a b : DateRange) : Prop :=
  a.start.rata ≤ b.start.rata ∧ a.stop.rata + 3 ≤ b.start.rata

lemma mergeRangesGo_chain :
    ∀ (rest : List DateRange) (last : DateRange),
      List.Pairwise rangeStartLe (last :: rest) →
      List.Chain' rangeSep (mergeRangesGo last rest)
        ∧ ∃ hd tl, mergeRangesGo last rest = hd :: tl ∧ hd.start = last.start
  | [], last, _ => ⟨List.chain'_singleton _, last, [], rfl, rfl⟩
  | current :: rest, last, hp => by
    unfold mergeRangesGo
    by_cases hc : current.start.rata ≤ last.stop.rata + 2
    · rw [if_pos hc]
      have hp' : List.Pairwise rangeStartLe
          (DateRange.mk last.start
            (if last.stop.rata < current.stop.rata then current.stop else last.stop)
            (some "Merged Range") :: rest) := by
        rw [List.pairwise_cons] at hp ⊢
        refine ⟨?_, hp.2.of_cons⟩
        intro r hr
        have hlr := hp.1 r (List.mem_cons_of_mem _ hr)
        unfold rangeStartLe at hlr ⊢
        simpa [range_start_mk] using hlr
      obtain ⟨ch, hd, tl, heq, hstart⟩ := mergeRangesGo_chain rest _ hp'
      exact ⟨ch, hd, tl, heq, hstart.trans (range_start_mk _ _ _)⟩
    · rw [if_neg hc]
      obtain ⟨ch, hd, tl, heq, hstart⟩ := mergeRangesGo_chain rest current hp.of_cons
      rw [heq]
      refine ⟨?_, last, hd :: tl, rfl, rfl⟩
      rw [List.chain'_cons]
      refine ⟨?_, heq ▸ ch⟩
      have hle : rangeStartLe last current := by
        rw [List.pairwise_cons] at hp
        exact hp.1 current (List.mem_cons_self _ _)
      unfold rangeSep
      unfold rangeStartLe at hle
      rw [hstart]
      omega

lemma mergeRangesGo_fixed :
    ∀ (rest : List DateRange) (last : DateRange),
      List.Chain' rangeSep (last :: rest) → mergeRangesGo last rest = last :: rest
  | [], _, _ => rfl
  | current :: rest, last, hch => by
    rw [List.chain'_cons] at hch
    obtain ⟨hsep, hch'⟩ := hch
    unfold mergeRangesGo
    rw [if_neg (by unfold rangeSep at hsep; omega)]
    rw [mergeRangesGo_fixed rest current hch']

/-- C8: the data-range plugin's `mergeRanges` is idempotent: its output is
sorted by start with consecutive ranges separated by a gap of at least two
days (beyond the mergeable one-day gap), so a second pass sorts it to
itself and merges nothing. -/
theorem c8_mergeRanges_idempotent :
    ∀ X : List DateRange, mergeRanges (mergeRanges X) = mergeRanges X := by
  have htrans : ∀ a b c : DateRange,
      (fun a b : DateRange => decide (a.start.rata ≤ b.start.rata)) a b = true →
      (fun a b : DateRange => decide (a.start.rata ≤ b.start.rata)) b c = true →
      (fun a b : DateRange => decide (a.start.rata ≤ b.start.rata)) a c = true := by
    intro a b c hab hbc
    simp only [decide_eq_true_eq] at hab hbc ⊢
    omega
  have htotal : ∀ a b : DateRange,
      ((fun a b : DateRange => decide (a.start.rata ≤ b.start.rata)) a b
        || (fun a b : DateRange => decide (a.start.rata ≤ b.start.rata)) b a) = true := by
    intro a b
    simp only [Bool.or_eq_true, decide_eq_true_eq]
    omega
  intro X
  cases hs : sortByStart X with
  | nil =>
    have h1 : mergeRanges X = [] := by
      unfold mergeRanges
      rw [hs]
    rw [h1]
    exact mergeRanges_nil
  | cons x xs =>
    have h1 : mergeRanges X = mergeRangesGo x xs := by
      unfold mergeRanges
      rw [hs]
    have hsorted : List.Pairwise rangeStartLe (x :: xs) := by
      have hres := List.sorted_mergeSort htrans htotal X
      rw [show X.mergeSort (fun a b : DateRange => decide (a.start.rata ≤ b.start.rata))
          = sortByStart X from rfl, hs] at hres
      exact hres.imp (fun h => of_decide_eq_true h)
    obtain ⟨hchain, hd, tl, heq, _⟩ := mergeRangesGo_chain xs x hsorted
    have hpair : List.Pairwise rangeStartLe (mergeRangesGo x xs) :=
      List.chain'_iff_pairwise.mp (List.Chain'.imp (fun _ _ h => h.1) hchain)
    have hsortY : sortByStart (mergeRangesGo x xs) = mergeRangesGo x xs := by
      unfold sortByStart
      exact List.mergeSort_of_sorted
        (hpair.imp (fun h => by simpa only [decide_eq_true_eq] using h))
    have h2 : mergeRanges (mergeRangesGo x xs) = mergeRangesGo x xs := by
      unfold mergeRanges
      rw [hsortY, heq]
      exact mergeRangesGo_fixed tl hd (heq ▸ hchain)
    rw [h1, h2]

/-- The dayjs units passed to `splitIntoBuckets` / `endOf`.  The claims only
exercise `day`; `month`, `quarter` and `year` are included as used elsewhere
by the service; `week` (whose `endOf` is locale-dependent) is not needed by
any verified operation and is omitted. -/
inductive OpUnit where
  | day
  | month
  | quarter
  | year
deriving DecidableEq, Repr

/-- dayjs `endOf(unit)` at day resolution: the last day of the enclosing
unit (`endOf('day')` is the identity at day resolution). -/
def endOfUnit : OpUnit → Date → Date
  | .day, d => d
  | .month, d => ⟨d.year, d.month, daysInMonthOf d.year d.month⟩
  | .quarter, d => ⟨d.year, 3 * (d.month / 3) + 2, daysInMonthOf d.year (3 * (d.month / 3) + 2)⟩
  | .year, d => ⟨d.year, 11, 31⟩

/-- English month abbreviations used by the `MMM` format token. -/
def monthAbbrev (m : Int) : String :=
  if m = 0 then "Jan" else if m = 1 then "Feb" else if m = 2 then "Mar"
  else if m = 3 then "Apr" else if m = 4 then "May" else if m = 5 then "Jun"
  else if m = 6 then "Jul" else if m = 7 then "Aug" else if m = 8 then "Sep"
  else if m = 9 then "Oct" else if m = 10 then "Nov" else "Dec"

/-- `getBucketLabel`: `'MMM D'` for days, `'MMM YYYY'` for months,
`Q<q> <year>` for quarters, `'YYYY'` for years. -/
def getBucketLabel (u : OpUnit) (d : Date) : String :=
  match u with
  | .day => monthAbbrev d.month ++ " " ++ toString d.day
  | .month => monthAbbrev d.month ++ " " ++ toString d.year
  | .quarter => "Q" ++ toString (d.month / 3 + 1) ++ " " ++ toString d.year
  | .year => toString d.year

/-- A bucket produced by `splitIntoBuckets` (`stop` embeds the source's
`end` field). -/
structure DateBucket where
  start : Date
  stop : Date
  label : String
  index : Nat
deriving DecidableEq, Repr

lemma bucket_start_mk (a b : Date) (l : String) (i : Nat) :
    (DateBucket.mk a b l i).start = a := rfl

lemma bucket_stop_mk (a b : Date) (l : String) (i : Nat) :
    (DateBucket.mk a b l i).stop = b := rfl

/-- The `while` loop of `splitIntoBuckets`: while the cursor is on or before
the range end, emit a bucket from the cursor to `endOf(unit)` clipped to the
range end, and continue from the day after the (unclipped) bucket end.  The
fuel is one more than the day span of the range; at unit `day` every
iteration advances the cursor exactly one day, so the loop runs exactly
`span + 1` times. -/
def splitGo (re : Date) (unit : OpUnit) : Nat → Date → Nat → List DateBucket
  | 0, _, _ => []
  | f + 1, current, index =>
    if current.rata ≤ re.rata then
      DateBucket.mk current
        (if re.rata < (endOfUnit unit current).rata then re else endOfUnit unit current)
        (getBucketLabel unit current) index
        :: splitGo re unit f (endOfUnit unit current).nextDay (index + 1)
    else []

/-- `splitIntoBuckets(range, unit)`. -/
def splitIntoBuckets (range : DateRange) (unit : OpUnit) : List DateBucket :=
  splitGo range.stop unit ((range.stop.rata - range.start.rata).toNat + 1) range.start 0

lemma endOfUnit_day (d : Date) : endOfUnit OpUnit.day d = d := rfl

lemma splitGo_succ (re : Date) (u : OpUnit) (f : Nat) (c : Date) (i : Nat) :
    splitGo re u (f + 1) c i
      = if c.rata ≤ re.rata then
          DateBucket.mk c (if re.rata < (endOfUnit u c).rata then re else endOfUnit u c)
            (getBucketLabel u c) i :: splitGo re u f (endOfUnit u c).nextDay (i + 1)
        else [] := rfl

lemma splitGo_day (e : Date) (he : e.Valid) :
    ∀ (n : Nat) (s : Date), s.Valid → s.rata + n = e.rata → ∀ idx : Nat,
      (∃ b bs, splitGo e OpUnit.day (n + 1) s idx = b :: bs ∧ b.start = s)
        ∧ (∃ b, (splitGo e OpUnit.day (n + 1) s idx).getLast? = some b ∧ b.stop = e)
        ∧ List.Chain' (fun b1 b2 => b2.start = b1.stop.nextDay)
            (splitGo e OpUnit.day (n + 1) s idx)
        ∧ ∀ b ∈ splitGo e OpUnit.day (n + 1) s idx, b.start = b.stop
  | 0, s, hsv, hgap, idx => by
    have heq : s = e := rata_inj hsv he (by omega)
    have hres : splitGo e OpUnit.day 1 s idx
        = [DateBucket.mk s s (getBucketLabel OpUnit.day s) idx] := by
      rw [show (1 : Nat) = 0 + 1 from rfl, splitGo_succ, endOfUnit_day,
        if_pos (show s.rata ≤ e.rata by omega), if_neg (show ¬ e.rata < s.rata by omega)]
      rfl
    rw [hres]
    refine ⟨⟨_, _, rfl, rfl⟩, ⟨_, rfl, heq ▸ rfl⟩, List.chain'_singleton _, ?_⟩
    intro b hb
    simp only [List.mem_singleton] at hb
    rw [hb]
  | n + 1, s, hsv, hgap, idx => by
    have hlt : s.rata < e.rata := by omega
    have hsv' : s.nextDay.Valid := nextDay_valid hsv
    have hgap' : s.nextDay.rata + n = e.rata := by rw [rata_nextDay hsv]; omega
    obtain ⟨⟨b, bs, heqt, hbst⟩, ⟨bl, hlast, hstop⟩, hch, hwf⟩ :=
      splitGo_day e he n s.nextDay hsv' hgap' (idx + 1)
    have hres : splitGo e OpUnit.day (n + 1 + 1) s idx
        = DateBucket.mk s s (getBucketLabel OpUnit.day s) idx
            :: splitGo e OpUnit.day (n + 1) s.nextDay (idx + 1) := by
      rw [splitGo_succ, endOfUnit_day,
        if_pos (show s.rata ≤ e.rata by omega), if_neg (show ¬ e.rata < s.rata by omega)]
    rw [hres]
    refine ⟨⟨_, _, rfl, rfl⟩, ⟨bl, ?_, hstop⟩, ?_, ?_⟩
    · rw [heqt, List.getLast?_cons_cons, ← heqt]
      exact hlast
    · rw [heqt, List.chain'_cons]
      refine ⟨?_, heqt ▸ hch⟩
      rw [hbst, bucket_stop_mk]
    · intro b' hb'
      rcases List.mem_cons.mp hb' with hb' | hb'
      · rw [hb']
      · exact hwf b' hb'

/-- C9: at unit `day`, `splitIntoBuckets` cuts a range with `start ≤ end`
into contiguous, non-overlapping buckets that reconstruct the range exactly:
the first bucket starts at `range.start`, the last bucket ends at
`range.end`, and every bucket starts on the day after the previous bucket
ends (each bucket covering exactly one day). -/
theorem c9_split_into_day_buckets_partition (s e : Date) (lbl : Option String)
    (hs : s.Valid) (he : e.Valid) (hle : s.rata ≤ e.rata) :
    (∃ b bs, splitIntoBuckets ⟨s, e, lbl⟩ OpUnit.day = b :: bs ∧ b.start = s)
      ∧ (∃ b, (splitIntoBuckets ⟨s, e, lbl⟩ OpUnit.day).getLast? = some b ∧ b.stop = e)
      ∧ List.Chain' (fun b1 b2 => b2.start = b1.stop.nextDay)
          (splitIntoBuckets ⟨s, e, lbl⟩ OpUnit.day)
      ∧ ∀ b ∈ splitIntoBuckets ⟨s, e, lbl⟩ OpUnit.day, b.start = b.stop := by
  unfold splitIntoBuckets
  simp only [range_start_mk, range_stop_mk]
  exact splitGo_day e he (e.rata - s.rata).toNat s hs (by omega) 0

/-- Witness for C9: the four-day range 2024-01-15 .. 2024-01-18. -/
theorem c9_split_into_day_buckets_witness :
    (∃ b bs, splitIntoBuckets ⟨⟨2024, 0, 15⟩, ⟨2024, 0, 18⟩, none⟩ OpUnit.day = b :: bs
        ∧ b.start = ⟨2024, 0, 15⟩)
      ∧ (∃ b, (splitIntoBuckets ⟨⟨2024, 0, 15⟩, ⟨2024, 0, 18⟩, none⟩ OpUnit.day).getLast?
            = some b ∧ b.stop = ⟨2024, 0, 18⟩)
      ∧ List.Chain' (fun b1 b2 => b2.start = b1.stop.nextDay)
          (splitIntoBuckets ⟨⟨2024, 0, 15⟩, ⟨2024, 0, 18⟩, none⟩ OpUnit.day)
      ∧ ∀ b ∈ splitIntoBuckets ⟨⟨2024, 0, 15⟩, ⟨2024, 0, 18⟩, none⟩ OpUnit.day,
          b.start = b.stop :=
  c9_split_into_day_buckets_partition ⟨2024, 0, 15⟩ ⟨2024, 0, 18⟩ none
    (by decide) (by decide) (by decide)
